import Mathlib

/-!
# Tag search handler (`tag/search/main.go`)

A shallow embedding of `Handler`, the lambda handler that searches tags by
keyword with pagination, together with the library functions it calls
(`url.PathUnescape`, `strconv.Atoi`, `strings.Split`, `json.HTMLEscape`).

Go strings are byte sequences; a byte is a natural number.  Go's `int` is the
64-bit two's complement integer of the targets the lambda runs on.
-/

namespace TagSearch

/-! ## Strings and machine integers -/

/-- A Go string: its sequence of bytes. -/
abbrev GoString := List Nat

/-- The bytes of a string literal of the source (its UTF-8 encoding). -/
def str (s : String) : GoString :=
  (s.data.flatMap String.utf8EncodeChar).map UInt8.toNat

/-- Width in bits of Go's `int` (`strconv.IntSize`). -/
def intSize : Nat := 64

/-- Largest value of Go's `int`. -/
def maxInt : Int := 2 ^ (intSize - 1) - 1

/-- Smallest value of Go's `int`. -/
def minInt : Int := -(2 ^ (intSize - 1))

/-- The value of an `int` expression whose mathematical result is `x`: Go's
signed arithmetic wraps around modulo `2 ^ intSize`. -/
def wrapInt (x : Int) : Int :=
  (x + 2 ^ (intSize - 1)) % 2 ^ intSize - 2 ^ (intSize - 1)

/-! ## Query mods (`qm.QueryMod`) and the query builder -/

/-- The query mods `Handler` hands to the store: `qm.OrderBy(clause)`,
`qm.Where(clause, arg)`, `qm.Or(clause, arg)`, `qm.Limit(n)`, `qm.Offset(n)`. -/
inductive QueryMod where
  | OrderBy (clause : GoString)
  | Where (clause : GoString) (arg : GoString)
  | Or (clause : GoString) (arg : GoString)
  | Limit (count : Int)
  | Offset (offset : Int)
  deriving DecidableEq, Repr

/-- One pass of the loop body of `Handler` (lines 67-75): the clause for the
token `item` at index `i` is appended to `keywordList`. -/
def appendKeyword (keywordList : List QueryMod) (entry : Nat × GoString) : List QueryMod :=
  let keyword :=
    if entry.1 = 0 then
      QueryMod.Where (str "name like ?") (str "%" ++ entry.2 ++ str "%")
    else
      QueryMod.Or (str "name like ?") (str "%" ++ entry.2 ++ str "%")
  keywordList ++ [keyword]

/-- Lines 64-77 of `Handler`: the query-mod list built from the normalized
tokens `keywords` and the page index `id`. -/
def buildQuery (keywords : List GoString) (id : Int) : List QueryMod :=
  let keywordList : List QueryMod := []
  let keywordList := keywordList ++ [QueryMod.OrderBy (str "id asc")]
  let keywordList := keywords.enum.foldl appendKeyword keywordList
  let keywordList := keywordList ++ [QueryMod.Limit 20]
  keywordList ++ [QueryMod.Offset (wrapInt (wrapInt (id - 1) * 20))]

/-! ## Errors -/

/-- The two causes a `*strconv.NumError` can carry. -/
inductive NumErr where
  | ErrSyntax
  | ErrRange
  deriving DecidableEq, Repr

/-- The error values that reach `Handler`. -/
inductive GoError where
  /-- An error made by `errors.New(text)`. -/
  | New (text : GoString)
  /-- The `url.EscapeError(s)` of `url.PathUnescape`. -/
  | EscapeError (s : GoString)
  /-- The `*strconv.NumError` of `strconv.Atoi`, with `Func = "Atoi"`. -/
  | NumError (num : GoString) (cause : NumErr)
  /-- An error reported by the store when the query runs. -/
  | Store (text : GoString)
  /-- An error reported by `json.Marshal`. -/
  | Json (text : GoString)
  deriving DecidableEq, Repr

/-! ## `url.PathUnescape` -/

/-- The `ishex` helper of `net/url`. -/
def ishex (c : Nat) : Bool :=
  (48 ≤ c && c ≤ 57) || (97 ≤ c && c ≤ 102) || (65 ≤ c && c ≤ 70)

/-- The `unhex` helper of `net/url`. -/
def unhex (c : Nat) : Nat :=
  if 48 ≤ c ∧ c ≤ 57 then c - 48
  else if 97 ≤ c ∧ c ≤ 102 then c - 97 + 10
  else if 65 ≤ c ∧ c ≤ 70 then c - 65 + 10
  else 0

/-- The function `url.PathUnescape` (`unescape` in mode `encodePathSegment`):
every `%XY` with two hexadecimal digits becomes the byte `XY`, every other byte
is kept (also `+`), and a `%` not followed by two hexadecimal digits is an
`EscapeError` carrying at most three bytes from that `%` on. -/
def PathUnescape : GoString → GoString × Option GoError
  | [] => ([], none)
  | c :: rest =>
    if c = 37 then
      match rest with
      | h1 :: h2 :: rest2 =>
        if ishex h1 && ishex h2 then
          match PathUnescape rest2 with
          | (t, none) => ((unhex h1 * 16 + unhex h2) :: t, none)
          | (_, some e) => ([], some e)
        else ([], some (.EscapeError [c, h1, h2]))
      | short => ([], some (.EscapeError (c :: short)))
    else
      match PathUnescape rest with
      | (t, none) => (c :: t, none)
      | (_, some e) => ([], some e)

/-! ## `strconv.Atoi` -/

/-- The loop of the fast path of `strconv.Atoi`: `ch -= '0'` on a byte (it wraps
around below `'0'`), a syntax error (`none`) when `ch > 9`, else
`n = n*10 + int(ch)`. -/
def atoiFastLoop : GoString → Int → Option Int
  | [], n => some n
  | ch :: rest, n =>
    let ch := if 48 ≤ ch then ch - 48 else ch + 256 - 48
    if ch > 9 then none else atoiFastLoop rest (n * 10 + ch)

/-- The digit loop of `strconv.ParseUint(s, 10, 0)` on the unsigned 64-bit
accumulator `n`: a byte that is not a decimal digit is a syntax error (letters
give a digit value `>= base`, `_` is only skipped for base 0), `n >= cutoff`
or a wrapped `n*10 + d` is a range error with value `maxVal`. -/
def parseUintLoop : GoString → Nat → Nat × Option NumErr
  | [], n => (n, none)
  | c :: rest, n =>
    if 48 ≤ c ∧ c ≤ 57 then
      let d := c - 48
      if n ≥ (2 ^ 64 - 1) / 10 + 1 then (2 ^ 64 - 1, some .ErrRange)
      else
        let n := n * 10 % 2 ^ 64
        let n1 := (n + d) % 2 ^ 64
        if n1 < n ∨ n1 > 2 ^ 64 - 1 then (2 ^ 64 - 1, some .ErrRange)
        else parseUintLoop rest n1
    else (0, some .ErrSyntax)

/-- The function `strconv.ParseUint(s, 10, 0)`. -/
def ParseUint (s : GoString) : Nat × Option NumErr :=
  if s = [] then (0, some .ErrSyntax) else parseUintLoop s 0

/-- The function `strconv.ParseInt(s, 10, 0)`: the leading sign is picked
off, the rest is converted unsigned and checked against `1 << 63`. -/
def ParseInt (s : GoString) : Int × Option NumErr :=
  match s with
  | [] => (0, some .ErrSyntax)
  | c :: rest =>
    let neg := c = 45
    let s := if c = 43 ∨ c = 45 then rest else c :: rest
    let (un, err) := ParseUint s
    if err ≠ none ∧ err ≠ some .ErrRange then (0, err)
    else
      let cutoff : Nat := 2 ^ (intSize - 1)
      if ¬ neg ∧ un ≥ cutoff then (cutoff - 1, some .ErrRange)
      else if neg ∧ un > cutoff then (-cutoff, some .ErrRange)
      else (if neg then -un else un, none)

/-- The function `strconv.Atoi`: the fast path for strings of fewer than 19
bytes, `ParseInt(s, 10, 0)` otherwise.  Returns the value and the error (`none`
is Go's `nil`). -/
def Atoi (s : GoString) : Int × Option GoError :=
  let sLen := s.length
  if 0 < sLen ∧ sLen < 19 then
    let s0 := s
    match s with
    | [] => (0, some (.NumError s0 .ErrSyntax))
    | c :: rest =>
      let s := if c = 45 ∨ c = 43 then rest else c :: rest
      if (c = 45 ∨ c = 43) ∧ s.length < 1 then (0, some (.NumError s0 .ErrSyntax))
      else
        match atoiFastLoop s 0 with
        | none => (0, some (.NumError s0 .ErrSyntax))
        | some n => (if c = 45 then -n else n, none)
  else
    match ParseInt s with
    | (i64, some cause) => (i64, some (.NumError s cause))
    | (i64, none) => (i64, none)

/-! ## `strings.Split` and the token filter -/

/-- The function `strings.Split(s, sep)` for a one-byte separator `sep`, as
`Handler` calls it with `" "`: the substrings of `s` between the occurrences of
`sep`, in order; a string without `sep` (also the empty one) gives one
segment. -/
def Split (s : GoString) (sep : Nat) : List GoString :=
  match s with
  | [] => [[]]
  | c :: rest =>
    if c = sep then [] :: Split rest sep
    else
      match Split rest sep with
      | seg :: segs => (c :: seg) :: segs
      | [] => [[c]]

/-- Modelled from the spec: `pkg.StringArray.Filter` is not among the source
files; the spec says the normalizer discards the tokens its callback rejects
and keeps the order of the others. -/
def Filter (keywords : List GoString) (keep : GoString → Bool) : List GoString :=
  keywords.filter keep

/-- Lines 55-62 of `Handler`: the decoded keyword is split on `" "` and the
segments `t` with `len(t) < 1` are filtered out. -/
def tokens (_keywords : GoString) : List GoString :=
  let keywords := Split _keywords 32
  Filter keywords (fun t => if t.length < 1 then false else true)

/-! ## `json.HTMLEscape` -/

/-- The table `hex` of `encoding/json`. -/
def hex : GoString := str "0123456789abcdef"

/-- The slice `src[a:b]`. -/
def slice (src : GoString) (a b : Nat) : GoString := (src.take b).drop a

/-- The state of the loop of `appendHTMLEscape`: the bytes written so far and
the index `start` of the first byte not yet copied. -/
structure EscState where
  dst : GoString
  start : Nat
  deriving DecidableEq, Repr

/-- One pass of the loop of `appendHTMLEscape` at index `i`, byte `c`: for
`<`, `>`, `&` the pending bytes `src[start:i]` and the escape ending in
`hex[c>>4], hex[c&0xF]` are appended; for `0xE2 0x80` followed by a byte `b`
with `b &^ 1 == 0xA8` the pending bytes and the escape ending in `hex[b&0xF]`. -/
def htmlEscapeStep (src : GoString) (st : EscState) (entry : Nat × Nat) : EscState :=
  let i := entry.1
  let c := entry.2
  let st : EscState :=
    if c = 60 ∨ c = 62 ∨ c = 38 then
      { dst := st.dst ++ slice src st.start i ++
          [92, 117, 48, 48, hex.getD (c / 16) 0, hex.getD (c % 16) 0],
        start := i + 1 }
    else st
  if c = 226 ∧ i + 2 < src.length ∧ src.getD (i + 1) 0 = 128 ∧
      src.getD (i + 2) 0 / 2 * 2 = 168 then
    { dst := st.dst ++ slice src st.start i ++
        [92, 117, 50, 48, 50, hex.getD (src.getD (i + 2) 0 % 16) 0],
      start := i + 3 }
  else st

/-- The function `json.HTMLEscape` (`appendHTMLEscape`): each of the bytes
`<`, `>`, `&` becomes the six bytes of its JSON unicode escape (backslash, `u`,
`0`, `0` and two hexadecimal digits), the UTF-8 encodings of U+2028 and U+2029
become the six bytes of theirs; everything else is copied. -/
def HTMLEscape (src : GoString) : GoString :=
  let st := src.enum.foldl (htmlEscapeStep src) { dst := [], start := 0 }
  st.dst ++ src.drop st.start

/-! ## The handler -/

/-- Modelled from the spec: the `models.Tag` row type is generated code that is
not among the source files; the spec gives it at least an integer `id` and a
string `name`. -/
structure Tag where
  id : Int
  name : GoString
  deriving DecidableEq, Repr

/-- The fields of `events.APIGatewayProxyRequest` that `Handler` reads: the
map `PathParameters`. -/
structure Request where
  PathParameters : List (GoString × GoString)
  deriving DecidableEq, Repr

/-- The map index expression `m[key]` on a `map[string]string`: the zero value
`""` for a missing key. -/
def mapIndex (m : List (GoString × GoString)) (key : GoString) : GoString :=
  match m.lookup key with
  | some v => v
  | none => []

/-- The fields of `events.APIGatewayProxyResponse` that `Handler` sets; the
others keep their zero value. -/
structure Response where
  StatusCode : Int := 0
  Headers : List (GoString × GoString) := []
  Body : GoString := []
  IsBase64Encoded : Bool := false
  deriving DecidableEq, Repr

/-- The value `Handler` marshals: `map[string]interface{}{"message": ..., "tags": ...}`. -/
structure Envelope where
  message : GoString
  tags : List Tag
  deriving DecidableEq, Repr

/-- The collaborators of one run of `Handler`: what `conn.GetConnection()`
returns for `db` (`none` is `nil`, else the handle), what
`models.Tags(mods...).All(dbCtx, db)` returns for each mod list, and what
`json.Marshal` returns for each envelope. -/
structure Env where
  db : Option Nat
  All : List QueryMod → List Tag × Option GoError
  Marshal : Envelope → GoString × Option GoError

/-- The effects of a run of `Handler`, in the order they happen. -/
inductive Event where
  /-- The call `conn.GetConnection()` returned `db`. -/
  | GetConnection (db : Option Nat)
  /-- The call `log.Println(err)`. -/
  | Println (err : Option GoError)
  /-- The call `models.Tags(mods...).All(dbCtx, db)`. -/
  | All (mods : List QueryMod)
  /-- The deferred call `db.Close()`. -/
  | Close (db : Nat)
  /-- The deferred call `dbCtx.Done()`. -/
  | Done
  deriving DecidableEq, Repr

/-- What a run of `Handler` gives: the two return values and the effects. -/
structure Result where
  resp : Response
  err : Option GoError
  trace : List Event
  deriving DecidableEq, Repr

/-- A `return resp, err` of `Handler`: the deferred calls run, last deferred
first, after the effects so far. -/
def returns (resp : Response) (err : Option GoError) (trace deferred : List Event) : Result :=
  { resp := resp, err := err, trace := trace ++ deferred }

/-- The function `Handler` of `tag/search/main.go`. -/
def Handler (env : Env) (request : Request) : Result :=
  let db := env.db
  let trace := [Event.GetConnection db]
  let deferred := [Event.Done]
  match db with
  | none =>
    returns { StatusCode := 501, Body := str "\x7b\"message\": \"DB Connection Error\"\x7d" }
      (some (.New (str "DB Connection Error"))) trace deferred
  | some db =>
    let deferred := Event.Close db :: deferred
    let _keyword := mapIndex request.PathParameters (str "keyword")
    let (_keywords, err) := PathUnescape _keyword
    if err ≠ none then
      let trace := trace ++ [Event.Println err]
      returns { StatusCode := 501, Body := str "\x7b\"message\": \"Parameter Error\"\x7d" } err
        trace deferred
    else
      let pathID := mapIndex request.PathParameters (str "id")
      let (id, err) := Atoi pathID
      if err ≠ none ∨ id < 1 then
        let trace := trace ++ [Event.Println err]
        returns { StatusCode := 501, Body := str "\x7b\"message\": \"Parameter Error\"\x7d" } err
          trace deferred
      else
        let keywords := tokens _keywords
        let keywordList := buildQuery keywords id
        let (tags, err) := env.All keywordList
        let trace := trace ++ [Event.All keywordList]
        if err ≠ none then
          let trace := trace ++ [Event.Println err]
          returns { StatusCode := 501, Body := str "\x7b\"message\": \"DB Connection Error\"\x7d" }
            err trace deferred
        else
          let (body, err) := env.Marshal { message := str "OK", tags := tags }
          if err ≠ none then
            let trace := trace ++ [Event.Println err]
            returns { StatusCode := 404 } err trace deferred
          else
            let buf := HTMLEscape body
            let resp : Response :=
              { StatusCode := 200,
                IsBase64Encoded := false,
                Body := buf,
                Headers :=
                  [(str "Content-Type", str "application/json"),
                   (str "Access-Control-Allow-Origin", str "*"),
                   (str "Access-Control-Allow-Credentials", str "true"),
                   (str "Access-Control-Allow-Methods", str "GET")] }
            returns resp none trace deferred

/-- A request with the two path parameters `keyword` and `id`. -/
def mkRequest (keyword id : String) : Request :=
  { PathParameters := [(str "keyword", str keyword), (str "id", str id)] }

/-- A collaborator set for examples: the connection is there, the store
returns the one tag `sample` and `json.Marshal` returns `json`. -/
def sampleEnv (sample : Tag) (json : GoString) : Env :=
  { db := some 1, All := fun _ => ([sample], none), Marshal := fun _ => (json, none) }

/-- The collaborators used at the concrete requests below: the connection is
there, the store returns the tag `red` with id 7 and the encoder an empty
object. -/
def exampleEnv : Env := sampleEnv ⟨7, str "red"⟩ (str "\x7b\x7d")

/-- The collaborators of a run in which the store is unavailable:
`conn.GetConnection()` returns a nil `db`. -/
def noStoreEnv : Env := { exampleEnv with db := none }

/-! ## Observations on a run -/

/-- The mod lists handed to the store during a run, in order. -/
def queries : List Event → List (List QueryMod)
  | [] => []
  | .All mods :: rest => mods :: queries rest
  | _ :: rest => queries rest

/-- The arguments of the `log.Println` calls of a run, in order. -/
def logged : List Event → List (Option GoError)
  | [] => []
  | .Println err :: rest => err :: logged rest
  | _ :: rest => logged rest

/-- The connections obtained during a run. -/
def acquired : List Event → List Nat
  | [] => []
  | .GetConnection (some db) :: rest => db :: acquired rest
  | _ :: rest => acquired rest

/-- The connections closed during a run, one entry per `Close`. -/
def closed : List Event → List Nat
  | [] => []
  | .Close db :: rest => db :: closed rest
  | _ :: rest => closed rest

/-- The connections open after the effects `trace`, starting from `conns`. -/
def openAfter (conns : List Nat) : List Event → List Nat
  | [] => conns
  | .GetConnection (some db) :: rest => openAfter (db :: conns) rest
  | .Close db :: rest => openAfter (conns.erase db) rest
  | _ :: rest => openAfter conns rest

/-- Whether a mod is a filter clause (`Where` or `Or`). -/
def isFilterClause : QueryMod → Bool
  | .Where _ _ => true
  | .Or _ _ => true
  | _ => false

/-- The response of the two parameter-error exits. -/
def parameterError : Response :=
  { StatusCode := 501, Body := str "\x7b\"message\": \"Parameter Error\"\x7d" }

/-- The response of the connection-error and query-error exits. -/
def connectionError : Response :=
  { StatusCode := 501, Body := str "\x7b\"message\": \"DB Connection Error\"\x7d" }

/-- The `Or` clause the loop appends for a token that is not the first. -/
def orClause (t : GoString) : QueryMod :=
  .Or (str "name like ?") (str "%" ++ t ++ str "%")

/-- The `Where` clause the loop appends for the first token. -/
def whereClause (t : GoString) : QueryMod :=
  .Where (str "name like ?") (str "%" ++ t ++ str "%")

/-- The events of a run that follow its first `Close`. -/
def afterClose : List Event → List Event
  | [] => []
  | .Close _ :: rest => rest
  | _ :: rest => afterClose rest

/-- The bytes `<`, `>` and `&`. -/
def isHTMLSpecial (c : Nat) : Bool := c = 60 || c = 62 || c = 38

/-- The invariant of the loop of `appendHTMLEscape` once the prefix `pre` of the
input has been visited: nothing written so far is `<`, `>` or `&`, and neither
is any visited byte not yet copied. -/
def EscInv (st : EscState) (pre : GoString) : Prop :=
  (∀ b ∈ st.dst, isHTMLSpecial b = false) ∧ (∀ b ∈ pre.drop st.start, isHTMLSpecial b = false)

/-- The store's `LIKE` predicate as the specification reads it, pattern first:
`%` matches any run of characters, `_` any single character, every other
character itself, case-sensitively. -/
def likeMatch : GoString → GoString → Bool
  | [], name => name.isEmpty
  | p :: ps, name =>
    if p = 37 then name.tails.any (fun rest => likeMatch ps rest)
    else
      match name with
      | [] => false
      | c :: cs => (p = 95 || p = c) && likeMatch ps cs

/-- The patterns of the filter clauses of a mod list, in order. -/
def filterPatterns : List QueryMod → List GoString
  | [] => []
  | .Where _ arg :: rest => arg :: filterPatterns rest
  | .Or _ arg :: rest => arg :: filterPatterns rest
  | _ :: rest => filterPatterns rest

/-- Whether the store selects a row named `name` for the mod list `mods`:
without a `Where` or `Or` clause the query has no filter and every row is
selected; otherwise the row has to satisfy the disjunction of the `LIKE`
patterns of the clauses. -/
def satisfiesFilter (mods : List QueryMod) (name : GoString) : Bool :=
  match filterPatterns mods with
  | [] => true
  | pattern :: patterns => (pattern :: patterns).any (fun p => likeMatch p name)

/-! ## Vocabulary of the specification -/

/-- Whether a byte is an ASCII decimal digit. -/
def isDigit (c : Nat) : Bool := 48 ≤ c && c ≤ 57

/-- The number the decimal digits `s` denote when read after the digits of `n`. -/
def digitsFrom (n : Nat) (s : GoString) : Nat :=
  s.foldl (fun n c => n * 10 + (c - 48)) n

/-- The integer a string denotes as a decimal integer: an optional sign `+` or
`-` followed by one or more decimal digits; `none` for any other string.  This
follows the specification's wording and knows no bound. -/
def decimalInteger (s : GoString) : Option Int :=
  match s with
  | [] => none
  | c :: rest =>
    let digits := if c = 43 ∨ c = 45 then rest else c :: rest
    if digits ≠ [] ∧ digits.all isDigit = true then
      some (if c = 45 then -(digitsFrom 0 digits : Int) else (digitsFrom 0 digits : Int))
    else none

/-! ## The exits of `Handler` -/

theorem Handler_no_db (env : Env) (request : Request) (h : env.db = none) :
    Handler env request =
      ⟨connectionError, some (.New (str "DB Connection Error")),
        [.GetConnection none, .Done]⟩ := by
  simp [Handler, h, returns, connectionError]

theorem Handler_bad_keyword (env : Env) (request : Request) (d : Nat) (x : GoString)
    (e : GoError) (h : env.db = some d)
    (hk : PathUnescape (mapIndex request.PathParameters (str "keyword")) = (x, some e)) :
    Handler env request =
      ⟨parameterError, some e,
        [.GetConnection (some d), .Println (some e), .Close d, .Done]⟩ := by
  simp [Handler, h, hk, returns, parameterError]

theorem Handler_bad_id (env : Env) (request : Request) (d : Nat) (s : GoString)
    (id : Int) (err : Option GoError) (h : env.db = some d)
    (hk : PathUnescape (mapIndex request.PathParameters (str "keyword")) = (s, none))
    (hi : Atoi (mapIndex request.PathParameters (str "id")) = (id, err))
    (hbad : err ≠ none ∨ id < 1) :
    Handler env request =
      ⟨parameterError, err,
        [.GetConnection (some d), .Println err, .Close d, .Done]⟩ := by
  simp [Handler, h, hk, hi, returns, parameterError, hbad]

theorem Handler_query_failed (env : Env) (request : Request) (d : Nat) (s : GoString)
    (id : Int) (tags : List Tag) (e : GoError) (h : env.db = some d)
    (hk : PathUnescape (mapIndex request.PathParameters (str "keyword")) = (s, none))
    (hi : Atoi (mapIndex request.PathParameters (str "id")) = (id, none))
    (hid : 1 ≤ id)
    (hq : env.All (buildQuery (tokens s) id) = (tags, some e)) :
    Handler env request =
      ⟨connectionError, some e,
        [.GetConnection (some d), .All (buildQuery (tokens s) id), .Println (some e),
          .Close d, .Done]⟩ := by
  have hid2 : ¬ id < 1 := by omega
  simp [Handler, h, hk, hi, hq, returns, connectionError, hid2]

theorem Handler_marshal_failed (env : Env) (request : Request) (d : Nat) (s : GoString)
    (id : Int) (tags : List Tag) (body : GoString) (e : GoError) (h : env.db = some d)
    (hk : PathUnescape (mapIndex request.PathParameters (str "keyword")) = (s, none))
    (hi : Atoi (mapIndex request.PathParameters (str "id")) = (id, none))
    (hid : 1 ≤ id)
    (hq : env.All (buildQuery (tokens s) id) = (tags, none))
    (hm : env.Marshal { message := str "OK", tags := tags } = (body, some e)) :
    Handler env request =
      ⟨{ StatusCode := 404 }, some e,
        [.GetConnection (some d), .All (buildQuery (tokens s) id), .Println (some e),
          .Close d, .Done]⟩ := by
  have hid2 : ¬ id < 1 := by omega
  simp [Handler, h, hk, hi, hq, hm, returns, hid2]

theorem Handler_success (env : Env) (request : Request) (d : Nat) (s : GoString)
    (id : Int) (tags : List Tag) (body : GoString) (h : env.db = some d)
    (hk : PathUnescape (mapIndex request.PathParameters (str "keyword")) = (s, none))
    (hi : Atoi (mapIndex request.PathParameters (str "id")) = (id, none))
    (hid : 1 ≤ id)
    (hq : env.All (buildQuery (tokens s) id) = (tags, none))
    (hm : env.Marshal { message := str "OK", tags := tags } = (body, none)) :
    Handler env request =
      ⟨{ StatusCode := 200,
         IsBase64Encoded := false,
         Body := HTMLEscape body,
         Headers :=
           [(str "Content-Type", str "application/json"),
            (str "Access-Control-Allow-Origin", str "*"),
            (str "Access-Control-Allow-Credentials", str "true"),
            (str "Access-Control-Allow-Methods", str "GET")] }, none,
        [.GetConnection (some d), .All (buildQuery (tokens s) id), .Close d, .Done]⟩ := by
  have hid2 : ¬ id < 1 := by omega
  simp [Handler, h, hk, hi, hq, hm, returns, hid2]

/-- The run of `Handler` on valid parameters issues exactly one query, the
one built from the tokens and the page index. -/
theorem Handler_queries (env : Env) (request : Request) (d : Nat) (s : GoString)
    (id : Int) (hdb : env.db = some d)
    (hk : PathUnescape (mapIndex request.PathParameters (str "keyword")) = (s, none))
    (hi : Atoi (mapIndex request.PathParameters (str "id")) = (id, none))
    (hid : 1 ≤ id) :
    queries (Handler env request).trace = [buildQuery (tokens s) id] := by
  rcases hA : env.All (buildQuery (tokens s) id) with ⟨tags, _ | e⟩
  · rcases hM : env.Marshal { message := str "OK", tags := tags } with ⟨body, _ | e⟩
    · rw [Handler_success env request d s id tags body hdb hk hi hid hA hM]
      simp [queries]
    · rw [Handler_marshal_failed env request d s id tags body e hdb hk hi hid hA hM]
      simp [queries]
  · rw [Handler_query_failed env request d s id tags e hdb hk hi hid hA]
    simp [queries]

/-- Every run of `Handler` leaves by one of its six exits. -/
theorem Handler_exits (env : Env) (request : Request) :
    (env.db = none ∧ (Handler env request).trace = [.GetConnection none, .Done]) ∨
    ∃ d, env.db = some d ∧
      ((∃ err, (Handler env request).trace =
          [.GetConnection (some d), .Println err, .Close d, .Done]) ∨
       (∃ mods err, (Handler env request).trace =
          [.GetConnection (some d), .All mods, .Println err, .Close d, .Done]) ∨
       (∃ mods, (Handler env request).trace =
          [.GetConnection (some d), .All mods, .Close d, .Done])) := by
  rcases hdb : env.db with _ | d
  · left
    exact ⟨rfl, by rw [Handler_no_db env request hdb]⟩
  · right
    refine ⟨d, rfl, ?_⟩
    rcases hk : PathUnescape (mapIndex request.PathParameters (str "keyword")) with ⟨s, _ | e⟩
    · rcases hi : Atoi (mapIndex request.PathParameters (str "id")) with ⟨id, err⟩
      by_cases hbad : err ≠ none ∨ id < 1
      · left
        exact ⟨err, by rw [Handler_bad_id env request d s id err hdb hk hi hbad]⟩
      · have herr : err = none := by
          by_contra hne
          exact hbad (Or.inl hne)
        have hid : 1 ≤ id := by
          by_contra hlt
          exact hbad (Or.inr (by omega))
        subst herr
        right
        rcases hA : env.All (buildQuery (tokens s) id) with ⟨tags, _ | e⟩
        · rcases hM : env.Marshal { message := str "OK", tags := tags } with ⟨body, _ | e⟩
          · right
            exact ⟨_, by rw [Handler_success env request d s id tags body hdb hk hi hid hA hM]⟩
          · left
            exact ⟨_, some e, by
              rw [Handler_marshal_failed env request d s id tags body e hdb hk hi hid hA hM]⟩
        · left
          exact ⟨_, some e, by
            rw [Handler_query_failed env request d s id tags e hdb hk hi hid hA]⟩
    · left
      exact ⟨some e, by rw [Handler_bad_keyword env request d s e hdb hk]⟩

/-! ## The query builder -/

theorem foldl_appendKeyword_succ (l : List GoString) (n : Nat) (acc : List QueryMod) :
    (l.enumFrom (n + 1)).foldl appendKeyword acc = acc ++ l.map orClause := by
  induction l generalizing n acc with
  | nil => simp
  | cons t ts ih =>
    simp only [List.enumFrom_cons, List.foldl_cons, List.map_cons]
    rw [ih]
    simp [appendKeyword, orClause]

theorem buildQuery_nil (id : Int) :
    buildQuery [] id =
      [.OrderBy (str "id asc"), .Limit 20, .Offset (wrapInt (wrapInt (id - 1) * 20))] := by
  simp [buildQuery, List.enum]

theorem buildQuery_cons (t0 : GoString) (rest : List GoString) (id : Int) :
    buildQuery (t0 :: rest) id =
      .OrderBy (str "id asc") :: (whereClause t0 :: rest.map orClause) ++
        [.Limit 20, .Offset (wrapInt (wrapInt (id - 1) * 20))] := by
  simp only [buildQuery, List.enum, List.enumFrom_cons, List.foldl_cons, List.nil_append]
  rw [foldl_appendKeyword_succ]
  simp [appendKeyword, whereClause]

theorem wrapInt_of_range (x : Int) (hlo : minInt ≤ x) (hhi : x ≤ maxInt) : wrapInt x = x := by
  simp only [wrapInt, minInt, maxInt, intSize] at *
  omega

/-- In the range where `(id-1)*20` fits an `int`, the offset expression of
`Handler` is the integer `(id-1)*20`. -/
theorem offset_exact (id : Int) (h1 : 1 ≤ id) (h2 : (id - 1) * 20 ≤ maxInt) :
    wrapInt (wrapInt (id - 1) * 20) = (id - 1) * 20 := by
  have hm : maxInt = 9223372036854775807 := by simp [maxInt, intSize]
  have hn : minInt = -9223372036854775808 := by simp [minInt, intSize]
  rw [wrapInt_of_range (id - 1) (by omega) (by omega)]
  exact wrapInt_of_range _ (by omega) h2

/-! ## The token normalizer -/

theorem Split_ne_nil (s : GoString) (sep : Nat) : Split s sep ≠ [] := by
  induction s with
  | nil => simp [Split]
  | cons c rest ih =>
    simp only [Split]
    split
    · simp
    · split <;> simp

theorem Split_spaces (s : GoString) (h : ∀ c ∈ s, c = 32) :
    ∀ seg ∈ Split s 32, seg = [] := by
  induction s with
  | nil => simp [Split]
  | cons c rest ih =>
    have hc : c = 32 := h c (by simp)
    have hr : ∀ c ∈ rest, c = 32 := fun x hx => h x (by simp [hx])
    subst hc
    simpa [Split] using ih hr

theorem tokens_spaces (s : GoString) (h : ∀ c ∈ s, c = 32) : tokens s = [] := by
  simp only [tokens, Filter, List.filter_eq_nil_iff]
  intro seg hseg
  simp [Split_spaces s h seg hseg]

theorem Split_intercalate (s : GoString) (sep : Nat) :
    List.intercalate [sep] (Split s sep) = s := by
  induction s with
  | nil => simp [Split, List.intercalate]
  | cons c rest ih =>
    simp only [Split]
    split
    · rename_i hc
      rcases hsp : Split rest sep with _ | ⟨seg, segs⟩
      · exact absurd hsp (Split_ne_nil rest sep)
      · rw [hsp] at ih
        simp only [List.intercalate, List.intersperse, List.flatten_cons, List.nil_append,
          List.singleton_append] at ih ⊢
        rw [ih, hc]
    · rcases hsp : Split rest sep with _ | ⟨seg, segs⟩
      · exact absurd hsp (Split_ne_nil rest sep)
      · rw [hsp] at ih
        cases segs with
        | nil =>
          simp only [List.intercalate, List.intersperse, List.flatten_cons, List.flatten_nil,
            List.append_nil] at ih ⊢
          rw [ih]
        | cons seg2 segs =>
          simp only [List.intercalate, List.intersperse, List.flatten_cons,
            List.cons_append] at ih ⊢
          rw [ih]

theorem Split_no_sep (s : GoString) (sep : Nat) : ∀ seg ∈ Split s sep, sep ∉ seg := by
  induction s with
  | nil => simp [Split]
  | cons c rest ih =>
    simp only [Split]
    split
    · intro seg hseg
      rcases List.mem_cons.1 hseg with rfl | h
      · simp
      · exact ih seg h
    · rename_i hc
      rcases hsp : Split rest sep with _ | ⟨seg0, segs⟩
      · exact absurd hsp (Split_ne_nil rest sep)
      · rw [hsp] at ih
        intro seg hseg
        rcases List.mem_cons.1 hseg with rfl | h
        · intro hmem
          rcases List.mem_cons.1 hmem with h1 | h1
          · exact hc h1.symm
          · exact ih seg0 (by simp) h1
        · exact ih seg (by simp [h])

theorem Split_flatten (s : GoString) (sep : Nat) :
    (Split s sep).flatten = s.filter (fun c => decide (c ≠ sep)) := by
  induction s with
  | nil => simp [Split]
  | cons c rest ih =>
    simp only [Split]
    split
    · rename_i hc
      simpa [List.filter_cons, hc] using ih
    · rename_i hc
      rcases hsp : Split rest sep with _ | ⟨seg0, segs⟩
      · exact absurd hsp (Split_ne_nil rest sep)
      · rw [hsp] at ih
        simp only [List.flatten_cons] at ih
        simpa [List.filter_cons, hc] using ih

theorem flatten_filter_nonempty (l : List GoString) :
    (l.filter (fun t => if t.length < 1 then false else true)).flatten = l.flatten := by
  induction l with
  | nil => rfl
  | cons a l ih =>
    cases a with
    | nil => simpa [List.filter_cons] using ih
    | cons x xs =>
      have hx : (if (x :: xs).length < 1 then false else true) = true := by simp
      rw [List.filter_cons, if_pos hx, List.flatten_cons, List.flatten_cons, ih]

theorem tokens_eq_nil_iff (s : GoString) : tokens s = [] ↔ ∀ c ∈ s, c = 32 := by
  constructor
  · intro h c hc
    have hflat : (tokens s).flatten = s.filter (fun c => decide (c ≠ 32)) := by
      simp only [tokens, Filter]
      rw [flatten_filter_nonempty, Split_flatten]
    rw [h] at hflat
    have hnil : s.filter (fun c => decide (c ≠ 32)) = [] := by simpa using hflat.symm
    have := (List.filter_eq_nil_iff.1 hnil) c hc
    simpa using this
  · exact tokens_spaces s

/-! ## The response shaper -/

theorem getD_mem_or_default (l : List Nat) (k d : Nat) : l.getD k d ∈ l ∨ l.getD k d = d := by
  induction l generalizing k with
  | nil => right; simp
  | cons a l ih =>
    cases k with
    | zero => left; simp
    | succ k =>
      rcases ih k with h | h
      · left
        exact List.mem_cons_of_mem a (by simpa using h)
      · right; simpa using h

theorem hex_not_special (k : Nat) : isHTMLSpecial (hex.getD k 0) = false := by
  have hall : ∀ x ∈ hex, isHTMLSpecial x = false := by decide
  rcases getD_mem_or_default hex k 0 with h | h
  · exact hall _ h
  · rw [h]; rfl

theorem htmlEscapeStep_inv (pre suf : GoString) (c : Nat) (st : EscState)
    (h : EscInv st pre) :
    EscInv (htmlEscapeStep (pre ++ c :: suf) st (pre.length, c)) (pre ++ [c]) := by
  obtain ⟨hd, hp⟩ := h
  have hslice : ∀ a, slice (pre ++ c :: suf) a pre.length = pre.drop a := by
    intro a
    simp [slice, List.take_left']
  by_cases hs : c = 60 ∨ c = 62 ∨ c = 38
  · have hne : ¬ (c = 226 ∧ pre.length + 2 < (pre ++ c :: suf).length ∧
        (pre ++ c :: suf).getD (pre.length + 1) 0 = 128 ∧
        (pre ++ c :: suf).getD (pre.length + 2) 0 / 2 * 2 = 168) := by
      rintro ⟨h226, -⟩
      omega
    simp only [htmlEscapeStep, if_pos hs, if_neg hne, hslice]
    refine ⟨?_, ?_⟩
    · intro b hb
      simp only [List.mem_append, List.mem_cons, List.mem_singleton] at hb
      rcases hb with (hb | hb) | hb
      · exact hd b hb
      · exact hp b hb
      · rcases hb with rfl | rfl | rfl | rfl | rfl | rfl | hb
        · rfl
        · rfl
        · rfl
        · rfl
        · exact hex_not_special _
        · exact hex_not_special _
        · simp at hb
    · intro b hb
      simp at hb
  · by_cases hu : c = 226 ∧ pre.length + 2 < (pre ++ c :: suf).length ∧
        (pre ++ c :: suf).getD (pre.length + 1) 0 = 128 ∧
        (pre ++ c :: suf).getD (pre.length + 2) 0 / 2 * 2 = 168
    · simp only [htmlEscapeStep, if_neg hs, if_pos hu, hslice]
      refine ⟨?_, ?_⟩
      · intro b hb
        simp only [List.mem_append, List.mem_cons, List.mem_singleton] at hb
        rcases hb with (hb | hb) | hb
        · exact hd b hb
        · exact hp b hb
        · rcases hb with rfl | rfl | rfl | rfl | rfl | rfl | hb
          · rfl
          · rfl
          · rfl
          · rfl
          · rfl
          · exact hex_not_special _
          · simp at hb
      · intro b hb
        simp at hb
    · simp only [htmlEscapeStep, if_neg hs, if_neg hu]
      refine ⟨hd, ?_⟩
      intro b hb
      rw [List.drop_append_eq_append_drop] at hb
      rcases List.mem_append.1 hb with hb | hb
      · exact hp b hb
      · have hbc : b = c := by
          have := List.mem_of_mem_drop hb
          simpa using this
        subst hbc
        simp only [isHTMLSpecial, Bool.or_eq_false_iff, decide_eq_false_iff_not]
        omega

theorem htmlEscape_fold_inv (src : GoString) (suf : GoString) :
    ∀ (pre : GoString) (st : EscState), src = pre ++ suf → EscInv st pre →
      EscInv ((suf.enumFrom pre.length).foldl (htmlEscapeStep src) st) src := by
  induction suf with
  | nil =>
    intro pre st hsrc h
    simpa [hsrc] using h
  | cons c suf ih =>
    intro pre st hsrc h
    simp only [List.enumFrom_cons, List.foldl_cons]
    have hstep := htmlEscapeStep_inv pre suf c st h
    rw [← hsrc] at hstep
    have := ih (pre ++ [c]) _ (by simp [hsrc]) hstep
    simpa using this

/-- The output of `json.HTMLEscape` holds no `<`, `>` or `&` byte. -/
theorem HTMLEscape_no_special (src : GoString) :
    ∀ b ∈ HTMLEscape src, isHTMLSpecial b = false := by
  have h := htmlEscape_fold_inv src src [] { dst := [], start := 0 } rfl
    ⟨by simp, by simp⟩
  simp only [List.length_nil] at h
  intro b hb
  simp only [HTMLEscape, List.enum, List.mem_append] at hb
  rcases hb with hb | hb
  · exact h.1 b hb
  · exact h.2 b hb

/-! ## What the filter matches -/

theorem str_percent : str "%" = [37] := by decide

theorem filterPatterns_append (l1 l2 : List QueryMod) :
    filterPatterns (l1 ++ l2) = filterPatterns l1 ++ filterPatterns l2 := by
  induction l1 with
  | nil => rfl
  | cons m l1 ih => cases m <;> simp [filterPatterns, ih]

theorem filterPatterns_orClauses (l : List GoString) :
    filterPatterns (l.map orClause) = l.map (fun t => 37 :: (t ++ [37])) := by
  induction l with
  | nil => rfl
  | cons t l ih => simp [orClause, filterPatterns, ih, str_percent]

theorem filterPatterns_buildQuery (toks : List GoString) (id : Int) :
    filterPatterns (buildQuery toks id) = toks.map (fun t => 37 :: (t ++ [37])) := by
  cases toks with
  | nil => simp [buildQuery_nil, filterPatterns]
  | cons t0 rest =>
    rw [buildQuery_cons]
    simp [filterPatterns, filterPatterns_append, filterPatterns_orClauses, whereClause,
      str_percent]

/-- A token followed by `%` matches every name the token is a prefix of. -/
theorem likeMatch_of_prefix (t : GoString) :
    ∀ name : GoString, t <+: name → likeMatch (t ++ [37]) name = true := by
  induction t with
  | nil =>
    intro name _
    simp only [List.nil_append, likeMatch, if_pos, List.any_eq_true]
    exact ⟨[], by simp, rfl⟩
  | cons c t ih =>
    intro name hpre
    cases name with
    | nil => simp at hpre
    | cons d ds =>
      obtain ⟨hcd, hpre2⟩ := List.cons_prefix_cons.1 hpre
      subst hcd
      simp only [List.cons_append, likeMatch]
      split
      · simp only [List.any_eq_true]
        refine ⟨ds, ?_, ih ds hpre2⟩
        simp [List.mem_tails, List.suffix_cons]
      · simp [ih ds hpre2]

/-- A token without `%` and `_`, followed by `%`, matches only the names the
token is a prefix of. -/
theorem prefix_of_likeMatch (t : GoString) (hw : ∀ c ∈ t, c ≠ 37 ∧ c ≠ 95) :
    ∀ name : GoString, likeMatch (t ++ [37]) name = true → t <+: name := by
  induction t with
  | nil => intro name _; simp
  | cons c t ih =>
    intro name hm
    have hc := hw c (by simp)
    have ht : ∀ x ∈ t, x ≠ 37 ∧ x ≠ 95 := fun x hx => hw x (by simp [hx])
    simp only [List.cons_append, likeMatch, if_neg hc.1] at hm
    cases name with
    | nil => simp at hm
    | cons d ds =>
      simp only [Bool.and_eq_true, Bool.or_eq_true, decide_eq_true_eq] at hm
      obtain ⟨hcd, hrest⟩ := hm
      have hcd2 : c = d := by
        rcases hcd with h | h
        · exact absurd h hc.2
        · exact h
      subst hcd2
      exact List.cons_prefix_cons.2 ⟨rfl, ih ht ds hrest⟩

theorem likeMatch_of_infix (t name : GoString) (h : t <:+: name) :
    likeMatch (37 :: (t ++ [37])) name = true := by
  obtain ⟨u, hpre, hsuf⟩ := List.infix_iff_prefix_suffix.1 h
  simp only [likeMatch, if_pos, List.any_eq_true]
  exact ⟨u, (List.mem_tails _ _).2 hsuf, likeMatch_of_prefix t u hpre⟩

theorem infix_of_likeMatch (t name : GoString) (hw : ∀ c ∈ t, c ≠ 37 ∧ c ≠ 95)
    (h : likeMatch (37 :: (t ++ [37])) name = true) : t <:+: name := by
  simp only [likeMatch, if_pos, List.any_eq_true] at h
  obtain ⟨u, hu, hm⟩ := h
  exact List.infix_iff_prefix_suffix.2
    ⟨u, prefix_of_likeMatch t hw u hm, (List.mem_tails _ _).1 hu⟩

/-! ## The request validator -/

theorem digitsFrom_ge (s : GoString) : ∀ n, n ≤ digitsFrom n s := by
  induction s with
  | nil => intro n; simp [digitsFrom]
  | cons c rest ih =>
    intro n
    have := ih (n * 10 + (c - 48))
    simp only [digitsFrom, List.foldl_cons] at this ⊢
    omega

theorem digitsFrom_lt (s : GoString) (hs : s.all isDigit = true) :
    ∀ n, digitsFrom n s < (n + 1) * 10 ^ s.length := by
  induction s with
  | nil => intro n; simp [digitsFrom]
  | cons c rest ih =>
    intro n
    simp only [List.all_cons, Bool.and_eq_true] at hs
    have hc : 48 ≤ c ∧ c ≤ 57 := by simpa [isDigit] using hs.1
    have h := ih hs.2 (n * 10 + (c - 48))
    simp only [digitsFrom, List.foldl_cons, List.length_cons] at h ⊢
    have hle : (n * 10 + (c - 48) + 1) * 10 ^ rest.length ≤ (n + 1) * 10 ^ (rest.length + 1) :=
      calc (n * 10 + (c - 48) + 1) * 10 ^ rest.length
          ≤ ((n + 1) * 10) * 10 ^ rest.length := Nat.mul_le_mul_right _ (by omega)
        _ = (n + 1) * 10 ^ (rest.length + 1) := by ring
    omega

theorem atoiFastLoop_eq (s : GoString) :
    ∀ n : Nat, atoiFastLoop s (n : Int) =
      if s.all isDigit = true then some ((digitsFrom n s : Nat) : Int) else none := by
  induction s with
  | nil => intro n; simp [atoiFastLoop, digitsFrom]
  | cons c rest ih =>
    intro n
    by_cases hc : 48 ≤ c ∧ c ≤ 57
    · have hd : isDigit c = true := by simp [isDigit, hc]
      have h9 : ¬ (if 48 ≤ c then c - 48 else c + 256 - 48) > 9 := by
        rw [if_pos hc.1]; omega
      have hcast : (n : Int) * 10 + ((if 48 ≤ c then c - 48 else c + 256 - 48 : Nat) : Int) =
          ((n * 10 + (c - 48) : Nat) : Int) := by
        rw [if_pos hc.1]; push_cast; rfl
      simp only [atoiFastLoop, if_neg h9, hcast, ih, List.all_cons, hd, Bool.true_and,
        digitsFrom, List.foldl_cons]
    · have hd : isDigit c = false := by
        simp only [isDigit, Bool.and_eq_false_iff, decide_eq_false_iff_not]
        omega
      have h9 : (if 48 ≤ c then c - 48 else c + 256 - 48) > 9 := by
        split <;> omega
      simp only [atoiFastLoop, if_pos h9, List.all_cons, hd]
      simp

theorem parseUintLoop_range (s : GoString) :
    ∀ n, (parseUintLoop s n).2 = some .ErrRange → (parseUintLoop s n).1 = 2 ^ 64 - 1 := by
  induction s with
  | nil => intro n h; simp [parseUintLoop] at h
  | cons c rest ih =>
    intro n
    simp only [parseUintLoop]
    split
    · split
      · intro _; rfl
      · split
        · intro _; rfl
        · exact ih _
    · intro h; simp at h

theorem parseUintLoop_not_digits (s : GoString) (hs : s.all isDigit = false) :
    ∀ n, (parseUintLoop s n).2 ≠ none := by
  induction s with
  | nil => simp at hs
  | cons c rest ih =>
    intro n
    simp only [parseUintLoop]
    split
    · rename_i hc
      have hd : isDigit c = true := by simp [isDigit, hc]
      have hr : rest.all isDigit = false := by
        simpa [List.all_cons, hd] using hs
      split
      · simp
      · split
        · simp
        · exact ih hr _
    · simp

theorem parseUintLoop_digits (s : GoString) (hs : s.all isDigit = true) :
    ∀ n, n < 2 ^ 64 →
      parseUintLoop s n =
        if digitsFrom n s < 2 ^ 64 then (digitsFrom n s, none)
        else (2 ^ 64 - 1, some .ErrRange) := by
  induction s with
  | nil =>
    intro n hn
    simp only [parseUintLoop, digitsFrom, List.foldl_nil]
    rw [if_pos hn]
  | cons c rest ih =>
    intro n hn
    simp only [List.all_cons, Bool.and_eq_true] at hs
    have hc : 48 ≤ c ∧ c ≤ 57 := by simpa [isDigit] using hs.1
    have hge := digitsFrom_ge rest (n * 10 + (c - 48))
    simp only [parseUintLoop, if_pos hc, digitsFrom, List.foldl_cons]
    simp only [digitsFrom] at hge
    by_cases hcut : n ≥ (2 ^ 64 - 1) / 10 + 1
    · rw [if_pos hcut, if_neg (by omega)]
    · rw [if_neg hcut]
      have hmul : n * 10 % 2 ^ 64 = n * 10 := Nat.mod_eq_of_lt (by omega)
      rw [hmul]
      by_cases hwrap : n * 10 + (c - 48) < 2 ^ 64
      · have hmod : (n * 10 + (c - 48)) % 2 ^ 64 = n * 10 + (c - 48) := Nat.mod_eq_of_lt hwrap
        rw [hmod, if_neg (by omega)]
        have := ih hs.2 (n * 10 + (c - 48)) hwrap
        simpa [digitsFrom] using this
      · have hmod : (n * 10 + (c - 48)) % 2 ^ 64 = n * 10 + (c - 48) - 2 ^ 64 := by
          omega
        rw [hmod, if_pos (by omega), if_neg (by omega)]

theorem ParseUint_facts (digits : GoString) :
    (digits = [] → (ParseUint digits).2 = some .ErrSyntax) ∧
    (digits ≠ [] → digits.all isDigit = false →
      (ParseUint digits).2 ≠ none ∧
      ((ParseUint digits).2 = some .ErrRange → (ParseUint digits).1 = 2 ^ 64 - 1)) ∧
    (digits ≠ [] → digits.all isDigit = true →
      (digitsFrom 0 digits < 2 ^ 64 → ParseUint digits = (digitsFrom 0 digits, none)) ∧
      (2 ^ 64 ≤ digitsFrom 0 digits → ParseUint digits = (2 ^ 64 - 1, some .ErrRange))) := by
  refine ⟨?_, ?_, ?_⟩
  · intro h
    simp [ParseUint, h]
  · intro hne hall
    simp only [ParseUint, if_neg hne]
    exact ⟨parseUintLoop_not_digits digits hall 0, parseUintLoop_range digits 0⟩
  · intro hne hall
    simp only [ParseUint, if_neg hne]
    have h := parseUintLoop_digits digits hall 0 (by norm_num)
    refine ⟨?_, ?_⟩
    · intro hlt
      rw [h, if_pos hlt]
    · intro hge
      rw [h, if_neg (by omega)]

theorem ParseInt_cons_eq (c : Nat) (rest : GoString) (un : Nat) (err : Option NumErr)
    (hP : ParseUint (if c = 43 ∨ c = 45 then rest else c :: rest) = (un, err)) :
    ParseInt (c :: rest) =
      if err ≠ none ∧ err ≠ some .ErrRange then (0, err)
      else if ¬ c = 45 ∧ un ≥ 9223372036854775808 then (9223372036854775807, some .ErrRange)
      else if c = 45 ∧ un > 9223372036854775808 then (-9223372036854775808, some .ErrRange)
      else (if c = 45 then -(un : Int) else (un : Int), none) := by
  simp [ParseInt, hP, intSize]

theorem decimalInteger_cons (c : Nat) (rest : GoString) :
    decimalInteger (c :: rest) =
      if (if c = 43 ∨ c = 45 then rest else c :: rest) ≠ [] ∧
          (if c = 43 ∨ c = 45 then rest else c :: rest).all isDigit = true then
        some (if c = 45 then -(digitsFrom 0 (if c = 43 ∨ c = 45 then rest else c :: rest) : Int)
          else (digitsFrom 0 (if c = 43 ∨ c = 45 then rest else c :: rest) : Int))
      else none := rfl

/-- The function `strconv.ParseInt(s, 10, 0)` succeeds with `v` exactly when `s`
is a decimal integer of value `v` and `v` fits an `int`. -/
theorem ParseInt_ok_iff (s : GoString) (v : Int) :
    ParseInt s = (v, none) ↔ decimalInteger s = some v ∧ minInt ≤ v ∧ v ≤ maxInt := by
  cases s with
  | nil => simp [ParseInt, decimalInteger]
  | cons c rest =>
    obtain ⟨f1, f2, f3⟩ := ParseUint_facts (if c = 43 ∨ c = 45 then rest else c :: rest)
    have hmin : minInt = -9223372036854775808 := by simp [minInt, intSize]
    have hmax : maxInt = 9223372036854775807 := by simp [maxInt, intSize]
    rw [decimalInteger_cons, hmin, hmax]
    generalize hdig : (if c = 43 ∨ c = 45 then rest else c :: rest) = digits at f1 f2 f3 ⊢
    generalize hval : digitsFrom 0 digits = value at f3 ⊢
    have h64 : (2 : Nat) ^ 64 = 18446744073709551616 := by norm_num
    rw [h64] at f2 f3
    by_cases hnil : digits = []
    · have hP : ParseUint digits = ((ParseUint digits).1, some .ErrSyntax) := by
        rw [← f1 hnil]
      rw [← hdig] at hP
      rw [ParseInt_cons_eq c rest _ _ hP, if_pos (by simp), if_neg (by simp [hnil])]
      simp
    · by_cases hall : digits.all isDigit = true
      · obtain ⟨g1, g2⟩ := f3 hnil hall
        rw [if_pos ⟨hnil, hall⟩]
        by_cases hlt : value < 18446744073709551616
        · have hP := g1 hlt
          rw [← hdig] at hP
          rw [ParseInt_cons_eq c rest _ _ hP, if_neg (by simp)]
          by_cases hneg : c = 45
          · simp only [hneg, not_true_eq_false, false_and, if_false, true_and, if_true]
            by_cases hbig : value > 9223372036854775808
            · rw [if_pos hbig]
              constructor
              · intro h; simp at h
              · rintro ⟨h1, h2, h3⟩
                simp only [Option.some.injEq] at h1
                omega
            · rw [if_neg hbig]
              constructor
              · intro h
                simp only [Prod.mk.injEq, and_true] at h
                refine ⟨by rw [h], ?_, ?_⟩ <;> omega
              · rintro ⟨h1, -, -⟩
                simp only [Option.some.injEq] at h1
                rw [h1]
          · simp only [hneg, not_false_eq_true, true_and, false_and, if_false]
            by_cases hbig : value ≥ 9223372036854775808
            · rw [if_pos hbig]
              constructor
              · intro h; simp at h
              · rintro ⟨h1, h2, h3⟩
                simp only [Option.some.injEq] at h1
                omega
            · rw [if_neg hbig]
              constructor
              · intro h
                simp only [Prod.mk.injEq, and_true] at h
                refine ⟨by rw [h], ?_, ?_⟩ <;> omega
              · rintro ⟨h1, -, -⟩
                simp only [Option.some.injEq] at h1
                rw [h1]
        · have hP := g2 (by omega)
          rw [← hdig] at hP
          rw [ParseInt_cons_eq c rest _ _ hP, if_neg (by simp)]
          constructor
          · intro h
            by_cases hneg : c = 45 <;> simp [hneg] at h
          · rintro ⟨h1, h2, h3⟩
            by_cases hneg : c = 45
            · simp only [hneg, if_true, Option.some.injEq] at h1
              omega
            · simp only [hneg, if_false, Option.some.injEq] at h1
              omega
      · have hall2 : digits.all isDigit = false := by simpa using hall
        obtain ⟨g1, g2⟩ := f2 hnil hall2
        rw [if_neg (by simp [hall])]
        rcases hP : ParseUint digits with ⟨un, err⟩
        rw [hP] at g1 g2
        simp only at g1 g2
        rw [← hdig] at hP
        rw [ParseInt_cons_eq c rest _ _ hP]
        constructor
        · intro h
          exfalso
          by_cases hr : err = some .ErrRange
          · have hun := g2 hr
            subst hr hun
            by_cases hneg : c = 45 <;> simp [hneg] at h
          · rw [if_pos ⟨g1, hr⟩] at h
            simp only [Prod.mk.injEq] at h
            exact g1 h.2
        · rintro ⟨h1, -, -⟩
          simp at h1

/-- The function `strconv.Atoi` succeeds with `v` exactly when `s` is a decimal
integer of value `v` and `v` fits an `int`. -/
theorem Atoi_ok_iff (s : GoString) (v : Int) :
    Atoi s = (v, none) ↔ decimalInteger s = some v ∧ minInt ≤ v ∧ v ≤ maxInt := by
  by_cases hfast : 0 < s.length ∧ s.length < 19
  · cases s with
    | nil => simp at hfast
    | cons c rest =>
      have hmin : minInt = -9223372036854775808 := by simp [minInt, intSize]
      have hmax : maxInt = 9223372036854775807 := by simp [maxInt, intSize]
      have hlen : (if c = 45 ∨ c = 43 then rest else c :: rest).length ≤ 18 := by
        have := hfast.2
        simp only [List.length_cons] at this
        split
        · omega
        · simp only [List.length_cons]; omega
      have hswap : (if c = 43 ∨ c = 45 then rest else c :: rest) =
          (if c = 45 ∨ c = 43 then rest else c :: rest) := by
        by_cases h1 : c = 43 <;> by_cases h2 : c = 45 <;> simp [h1, h2]
      have hnosign : ¬ (c = 45 ∨ c = 43) →
          (if c = 45 ∨ c = 43 then rest else c :: rest) ≠ [] := by
        intro h
        rw [if_neg h]
        simp
      rw [decimalInteger_cons, hswap, hmin, hmax]
      simp only [Atoi, if_pos hfast]
      generalize (if c = 45 ∨ c = 43 then rest else c :: rest) = digits at hlen hnosign ⊢
      have hloop := atoiFastLoop_eq digits 0
      simp only [Nat.cast_zero] at hloop
      by_cases hsign : (c = 45 ∨ c = 43) ∧ digits.length < 1
      · have hnil : digits = [] := by
          cases digits with
          | nil => rfl
          | cons a l => have := hsign.2; simp at this
        rw [if_pos hsign, if_neg (by simp [hnil])]
        simp
      · have hne : digits ≠ [] := by
          by_cases hs : c = 45 ∨ c = 43
          · intro hnil
            exact hsign ⟨hs, by simp [hnil]⟩
          · exact hnosign hs
        rw [if_neg hsign, hloop]
        by_cases hall : digits.all isDigit = true
        · rw [if_pos hall, if_pos ⟨hne, hall⟩]
          have hbound := digitsFrom_lt digits hall 0
          have hpow : 10 ^ digits.length ≤ 10 ^ 18 := Nat.pow_le_pow_right (by norm_num) hlen
          have h18 : (10 : Nat) ^ 18 = 1000000000000000000 := by norm_num
          rw [h18] at hpow
          simp only [zero_add, one_mul] at hbound
          generalize digitsFrom 0 digits = value at hbound ⊢
          simp only [Prod.mk.injEq, and_true, Option.some.injEq]
          constructor
          · intro h
            refine ⟨h, ?_, ?_⟩ <;> split at h <;> omega
          · rintro ⟨h, -, -⟩
            exact h
        · rw [if_neg hall, if_neg (by simp [hall])]
          simp
  · have hslow : Atoi s = (v, none) ↔ ParseInt s = (v, none) := by
      simp only [Atoi, if_neg hfast]
      rcases ParseInt s with ⟨i, _ | cause⟩ <;> simp
    rw [hslow, ParseInt_ok_iff]

/-- The two return values of `strconv.Atoi`: either an error, or a value and
no error. -/
theorem Atoi_cases (s : GoString) :
    (∃ v, Atoi s = (v, none)) ∨ (∃ v e, Atoi s = (v, some e)) := by
  rcases Atoi s with ⟨v, _ | e⟩
  · exact Or.inl ⟨v, rfl⟩
  · exact Or.inr ⟨v, e, rfl⟩

/-! ## The properties of the specification -/

/-- C1. For a non-empty normalized token list `t0 :: rest` the mod list
`Handler` hands to the store is `OrderBy("id asc")`, then one
`Where("name like ?", "%"+t0+"%")`, then one `Or("name like ?", "%"+t+"%")` per
further token in token order, then `Limit(20)` and `Offset((id-1)*20)`; the
filter clauses are exactly these, one per token. -/
theorem C1_filter_clauses (env : Env) (request : Request) (d : Nat) (s : GoString)
    (id : Int) (t0 : GoString) (rest : List GoString)
    (hdb : env.db = some d)
    (hk : PathUnescape (mapIndex request.PathParameters (str "keyword")) = (s, none))
    (hi : Atoi (mapIndex request.PathParameters (str "id")) = (id, none))
    (hid : 1 ≤ id)
    (ht : tokens s = t0 :: rest) :
    queries (Handler env request).trace =
        [.OrderBy (str "id asc") ::
          (.Where (str "name like ?") (str "%" ++ t0 ++ str "%") ::
            rest.map (fun t => .Or (str "name like ?") (str "%" ++ t ++ str "%"))) ++
          [.Limit 20, .Offset (wrapInt (wrapInt (id - 1) * 20))]] ∧
      (buildQuery (t0 :: rest) id).filter isFilterClause =
        .Where (str "name like ?") (str "%" ++ t0 ++ str "%") ::
          rest.map (fun t => .Or (str "name like ?") (str "%" ++ t ++ str "%")) ∧
      ((buildQuery (t0 :: rest) id).filter isFilterClause).length = (t0 :: rest).length := by
  have hq := Handler_queries env request d s id hdb hk hi hid
  have hf : (buildQuery (t0 :: rest) id).filter isFilterClause =
      whereClause t0 :: rest.map orClause := by
    rw [buildQuery_cons]
    have hall : ∀ l : List GoString, (l.map orClause).filter isFilterClause = l.map orClause := by
      intro l
      induction l with
      | nil => rfl
      | cons a l ih => simp [List.filter, orClause, isFilterClause] at ih ⊢
    simp [List.filter_cons, List.filter_append, isFilterClause, whereClause, hall]
  refine ⟨?_, ?_, ?_⟩
  · rw [hq, ht, buildQuery_cons]; rfl
  · rw [hf]; rfl
  · rw [hf]; simp

/-- C1, at the request keyword `red blue`, id `1`: the store receives
`OrderBy id asc, Where %red%, Or %blue%, Limit 20, Offset 0`. -/
theorem C1_filter_clauses_witness :
    queries (Handler exampleEnv (mkRequest "red blue" "1")).trace =
      [[.OrderBy (str "id asc"), .Where (str "name like ?") (str "%red%"),
        .Or (str "name like ?") (str "%blue%"), .Limit 20, .Offset 0]] :=
  (C1_filter_clauses exampleEnv (mkRequest "red blue" "1") 1
    (str "red blue") 1 (str "red") [str "blue"] rfl (by decide) (by decide) (by decide)
    (by decide)).1

/-- With an empty token list, which happens exactly when the decoded keyword
is empty or made only of spaces, the mod list `Handler` hands to the store has
no `Where` and no `Or` clause: it is `OrderBy("id asc")`, `Limit(20)` and the
offset `Handler` computes, which is the integer `(id-1)*20` whenever that fits
an `int`. -/
theorem Handler_empty_tokens (env : Env) (request : Request) (d : Nat) (s : GoString)
    (id : Int)
    (hdb : env.db = some d)
    (hk : PathUnescape (mapIndex request.PathParameters (str "keyword")) = (s, none))
    (hi : Atoi (mapIndex request.PathParameters (str "id")) = (id, none))
    (hid : 1 ≤ id)
    (ht : tokens s = []) :
    queries (Handler env request).trace =
        [[.OrderBy (str "id asc"), .Limit 20, .Offset (wrapInt (wrapInt (id - 1) * 20))]] ∧
      (buildQuery (tokens s) id).filter isFilterClause = [] ∧
      ((id - 1) * 20 ≤ maxInt → wrapInt (wrapInt (id - 1) * 20) = (id - 1) * 20) ∧
      (∀ keyword : GoString, tokens keyword = [] ↔ ∀ c ∈ keyword, c = 32) := by
  refine ⟨?_, ?_, offset_exact id hid, tokens_eq_nil_iff⟩
  · rw [Handler_queries env request d s id hdb hk hi hid, ht, buildQuery_nil]
  · rw [ht, buildQuery_nil]; rfl

/-- The request keyword `""`, id `2`: the store receives
`OrderBy id asc, Limit 20, Offset 20`. -/
theorem Handler_empty_keyword_page_two :
    queries (Handler exampleEnv (mkRequest "" "2")).trace =
      [[.OrderBy (str "id asc"), .Limit 20, .Offset 20]] :=
  (Handler_empty_tokens exampleEnv (mkRequest "" "2") 1
    (str "") 2 rfl (by decide) (by decide) (by decide) (by decide)).1

/-- C2 fails at the keyword `""` and the page index `461168601842738792`,
which `strconv.Atoi` accepts: the token list is empty and the mod list has no
filter clause, but its offset is `-9223372036854775796`, not the integer
`(page-1)*20 = 9223372036854775820`. -/
theorem C2_empty_keyword_offset_overflow :
    (PathUnescape (str "")).2 = none ∧
      tokens (str "") = [] ∧
      Atoi (str "461168601842738792") = (461168601842738792, none) ∧
      queries (Handler exampleEnv (mkRequest "" "461168601842738792")).trace =
        [[.OrderBy (str "id asc"), .Limit 20, .Offset (-9223372036854775796)]] ∧
      ((461168601842738792 : Int) - 1) * 20 = 9223372036854775820 := by
  decide

/-- C3 fails at the page index `461168601842738792`, which `strconv.Atoi`
accepts: the store receives `Limit(20)` and the offset
`-9223372036854775796`, not the integer `(p-1)*20 = 9223372036854775820`. -/
theorem C3_offset_overflow :
    Atoi (str "461168601842738792") = (461168601842738792, none) ∧
      queries (Handler exampleEnv
          (mkRequest "red" "461168601842738792")).trace =
        [[.OrderBy (str "id asc"), .Where (str "name like ?") (str "%red%"),
          .Limit 20, .Offset (-9223372036854775796)]] ∧
      ((461168601842738792 : Int) - 1) * 20 = 9223372036854775820 ∧
      wrapInt (wrapInt (461168601842738792 - 1) * 20) ≠ (461168601842738792 - 1) * 20 := by
  decide

/-- C4. For every decoded keyword `s`, the segments `strings.Split(s, " ")`
are the pieces of `s` between its single spaces (joined by one space they give
`s` back, and none holds a space), and the token list is these segments in
order without the empty ones: no token is empty, no token holds a space, and
the tokens concatenated are `s` without its spaces.  The keyword `a b  c`
gives `a`, `b`, `c`. -/
theorem C4_tokens_are_nonempty_segments (s : GoString) :
    List.intercalate [32] (Split s 32) = s ∧
      (∀ seg ∈ Split s 32, 32 ∉ seg) ∧
      tokens s = (Split s 32).filter (fun seg => decide (seg ≠ [])) ∧
      (∀ t ∈ tokens s, t ≠ [] ∧ 32 ∉ t) ∧
      (tokens s).flatten = s.filter (fun c => decide (c ≠ 32)) ∧
      Split (str "a b  c") 32 = [str "a", str "b", str "", str "c"] ∧
      tokens (str "a b  c") = [str "a", str "b", str "c"] := by
  have hfilter : tokens s = (Split s 32).filter (fun seg => decide (seg ≠ [])) := by
    simp only [tokens, Filter]
    congr 1
    funext t
    cases t <;> simp
  refine ⟨Split_intercalate s 32, Split_no_sep s 32, hfilter, ?_, ?_, by decide, by decide⟩
  · intro t ht
    rw [hfilter] at ht
    rcases List.mem_filter.1 ht with ⟨hmem, hne⟩
    exact ⟨by simpa using hne, Split_no_sep s 32 t hmem⟩
  · simp only [tokens, Filter]
    rw [flatten_filter_nonempty, Split_flatten]

/-- C5 fails at the id `9223372036854775808`: the keyword `red` unescapes, the
id is a decimal integer `>= 1`, and still `Handler` answers 501 Parameter Error
and issues no query, because the id does not fit an `int`. -/
theorem C5_out_of_range_id :
    (PathUnescape (str "red")).2 = none ∧
      decimalInteger (str "9223372036854775808") = some 9223372036854775808 ∧
      (1 : Int) ≤ 9223372036854775808 ∧
      (Handler exampleEnv
          (mkRequest "red" "9223372036854775808")).resp = parameterError ∧
      queries (Handler exampleEnv
          (mkRequest "red" "9223372036854775808")).trace = [] := by
  decide

/-- C5, amended. When the connection was obtained, `Handler` answers 501
Parameter Error without issuing a query if and only if the keyword fails
`url.PathUnescape` or the id is not a decimal integer between 1 and the largest
`int`; for every other request exactly the query built from the tokens and the
page index is handed to the store. -/
theorem C5_parameter_error_iff (env : Env) (request : Request) (d : Nat)
    (hdb : env.db = some d) :
    (((Handler env request).resp = parameterError ∧
        queries (Handler env request).trace = []) ↔
      ((PathUnescape (mapIndex request.PathParameters (str "keyword"))).2 ≠ none ∨
        ¬ ∃ v, decimalInteger (mapIndex request.PathParameters (str "id")) = some v ∧
          1 ≤ v ∧ v ≤ maxInt)) ∧
    (∀ s v, PathUnescape (mapIndex request.PathParameters (str "keyword")) = (s, none) →
      decimalInteger (mapIndex request.PathParameters (str "id")) = some v →
      1 ≤ v → v ≤ maxInt →
      queries (Handler env request).trace = [buildQuery (tokens s) v]) := by
  have hmin : minInt = -9223372036854775808 := by simp [minInt, intSize]
  rcases hk : PathUnescape (mapIndex request.PathParameters (str "keyword")) with ⟨s, _ | e⟩
  · rcases Atoi_cases (mapIndex request.PathParameters (str "id")) with ⟨v, hv⟩ | ⟨v, e, hv⟩
    · obtain ⟨hdec, hlo, hhi⟩ := (Atoi_ok_iff _ v).1 hv
      by_cases h1 : 1 ≤ v
      · have hq := Handler_queries env request d s v hdb hk hv h1
        refine ⟨⟨?_, ?_⟩, ?_⟩
        · rintro ⟨-, hnone⟩
          rw [hq] at hnone
          simp at hnone
        · rintro (h | h)
          · simp at h
          · exact absurd ⟨v, hdec, h1, hhi⟩ h
        · intro s2 v2 hs2 hv2 _ _
          rw [hdec] at hv2
          simp only [Option.some.injEq] at hv2
          simp only [Prod.mk.injEq, and_true] at hs2
          rw [← hs2, ← hv2]
          exact hq
      · have hH := Handler_bad_id env request d s v none hdb hk hv (Or.inr (by omega))
        refine ⟨⟨?_, ?_⟩, ?_⟩
        · intro _
          right
          rintro ⟨v2, hv2, h12, -⟩
          rw [hdec] at hv2
          simp only [Option.some.injEq] at hv2
          omega
        · intro _
          rw [hH]
          exact ⟨rfl, by simp [queries]⟩
        · intro s2 v2 _ hv2 h12 _
          rw [hdec] at hv2
          simp only [Option.some.injEq] at hv2
          omega
    · have hH := Handler_bad_id env request d s v (some e) hdb hk hv (Or.inl (by simp))
      have hno : ¬ ∃ v2, decimalInteger (mapIndex request.PathParameters (str "id")) = some v2 ∧
          1 ≤ v2 ∧ v2 ≤ maxInt := by
        rintro ⟨v2, hv2, h12, hhi⟩
        have := (Atoi_ok_iff _ v2).2 ⟨hv2, by omega, hhi⟩
        rw [hv] at this
        simp at this
      refine ⟨⟨fun _ => Or.inr hno, ?_⟩, ?_⟩
      · intro _
        rw [hH]
        exact ⟨rfl, by simp [queries]⟩
      · intro s2 v2 _ hv2 h12 hhi
        exact absurd ⟨v2, hv2, h12, hhi⟩ hno
  · have hH := Handler_bad_keyword env request d s e hdb hk
    refine ⟨⟨fun _ => Or.inl (by simp), ?_⟩, ?_⟩
    · intro _
      rw [hH]
      exact ⟨rfl, by simp [queries]⟩
    · intro s2 v2 hs2
      simp at hs2

/-- C5, amended, at two requests: the keyword `%invalid-escape` is answered
501 Parameter Error without a query, and the request keyword `red`, id `3` has
its query handed to the store. -/
theorem C5_parameter_error_iff_witness :
    ((Handler exampleEnv (mkRequest "%invalid-escape" "1")).resp =
        parameterError ∧
      queries (Handler exampleEnv
        (mkRequest "%invalid-escape" "1")).trace = []) ∧
    queries (Handler exampleEnv (mkRequest "red" "3")).trace =
      [[.OrderBy (str "id asc"), .Where (str "name like ?") (str "%red%"), .Limit 20,
        .Offset 40]] :=
  ⟨(C5_parameter_error_iff exampleEnv
      (mkRequest "%invalid-escape" "1") 1 rfl).1.2 (Or.inl (by decide)),
    ((C5_parameter_error_iff exampleEnv (mkRequest "red" "3") 1
      rfl).2 (str "red") 3 (by decide) (by decide) (by decide) (by decide)).trans (by decide)⟩

/-- C6 fails at the id `"0"`: `Handler` returns the 501 Parameter Error
response with a nil error. -/
theorem C6_nil_error_for_id_zero :
    Atoi (str "0") = (0, none) ∧
      (Handler exampleEnv (mkRequest "red" "0")).resp =
        parameterError ∧
      (Handler exampleEnv (mkRequest "red" "0")).err = none := by
  decide

/-- C7. On the success path `Handler` returns a nil error and a response with
status 200, `IsBase64Encoded` false, the four fixed headers and, as body, the
HTML-escaped JSON encoding of `{message: "OK", tags: <the store's result>}`;
the body holds no `<`, `>` or `&` byte. -/
theorem C7_success_response (env : Env) (request : Request) (d : Nat) (s : GoString)
    (id : Int) (tags : List Tag) (body : GoString)
    (hdb : env.db = some d)
    (hk : PathUnescape (mapIndex request.PathParameters (str "keyword")) = (s, none))
    (hi : Atoi (mapIndex request.PathParameters (str "id")) = (id, none))
    (hid : 1 ≤ id)
    (hq : env.All (buildQuery (tokens s) id) = (tags, none))
    (hm : env.Marshal { message := str "OK", tags := tags } = (body, none)) :
    (Handler env request).err = none ∧
      (Handler env request).resp =
        { StatusCode := 200,
          IsBase64Encoded := false,
          Headers :=
            [(str "Content-Type", str "application/json"),
             (str "Access-Control-Allow-Origin", str "*"),
             (str "Access-Control-Allow-Credentials", str "true"),
             (str "Access-Control-Allow-Methods", str "GET")],
          Body := HTMLEscape body } ∧
      (∀ b ∈ (Handler env request).resp.Body, b ≠ 60 ∧ b ≠ 62 ∧ b ≠ 38) := by
  rw [Handler_success env request d s id tags body hdb hk hi hid hq hm]
  refine ⟨rfl, rfl, ?_⟩
  intro b hb
  have := HTMLEscape_no_special body b hb
  simp only [isHTMLSpecial, Bool.or_eq_false_iff, decide_eq_false_iff_not] at this
  exact ⟨this.1.1, this.1.2, this.2⟩

/-- C7, at the request keyword `red`, id `1`, with a store returning the tag
`a<b` and an encoder returning `{"tags":"<&>"}`: status 200 and the body with
the three bytes escaped. -/
theorem C7_success_response_witness :
    (Handler (sampleEnv ⟨7, str "a<b"⟩ (str "\x7b\"tags\":\"<&>\"\x7d")) (mkRequest "red" "1")).resp =
      { StatusCode := 200,
        IsBase64Encoded := false,
        Headers :=
          [(str "Content-Type", str "application/json"),
           (str "Access-Control-Allow-Origin", str "*"),
           (str "Access-Control-Allow-Credentials", str "true"),
           (str "Access-Control-Allow-Methods", str "GET")],
        Body := str "\x7b\"tags\":\"\\u003c\\u0026\\u003e\"\x7d" } :=
  (C7_success_response (sampleEnv ⟨7, str "a<b"⟩ (str "\x7b\"tags\":\"<&>\"\x7d"))
    (mkRequest "red" "1") 1 (str "red") 1 [⟨7, str "a<b"⟩] (str "\x7b\"tags\":\"<&>\"\x7d")
    rfl (by decide) (by decide) (by decide) rfl rfl).2.1.trans (by decide)

/-- C8. On every exit of `Handler` the connections closed are exactly the
connections obtained (the one of `db` when it is not nil, closed once; none
otherwise), no connection is open once the deferred calls have run, and no
query is issued after the close. -/
theorem C8_connection_released (env : Env) (request : Request) :
    acquired (Handler env request).trace = env.db.toList ∧
      closed (Handler env request).trace = acquired (Handler env request).trace ∧
      openAfter [] (Handler env request).trace = [] ∧
      queries (afterClose (Handler env request).trace) = [] := by
  rcases Handler_exits env request with ⟨hdb, ht⟩ | ⟨d, hdb, ⟨err, ht⟩ | ⟨mods, err, ht⟩ | ⟨mods, ht⟩⟩ <;>
    rw [ht, hdb] <;>
    simp [acquired, closed, openAfter, afterClose, queries]

/-- C9 fails at the id `"0"`, where the one log entry is the nil error, and
when the connection is unavailable, where nothing is logged. -/
theorem C9_log_without_cause :
    logged (Handler exampleEnv (mkRequest "red" "0")).trace =
        [none] ∧
      (Handler exampleEnv (mkRequest "red" "0")).resp.StatusCode =
        501 ∧
      logged (Handler noStoreEnv
          (mkRequest "red" "1")).trace = [] ∧
      (Handler noStoreEnv
          (mkRequest "red" "1")).resp.StatusCode = 501 := by
  decide

/-- C10 fails at the token `a_c` and the name `abc`: the name satisfies the
filter `Handler` builds for the keyword `a_c` but does not contain `a_c`.  It
also fails at the empty token list: for the keyword `""` the query has no
filter clause, the row named `abc` is selected, and there is no token for the
name to contain. -/
theorem C10_wildcard_counterexample :
    (queries (Handler exampleEnv (mkRequest "a_c" "1")).trace = [buildQuery [str "a_c"] 1] ∧
      satisfiesFilter (buildQuery [str "a_c"] 1) (str "abc") = true ∧
      ¬ ∃ t ∈ [str "a_c"], t <:+: str "abc") ∧
    (queries (Handler exampleEnv (mkRequest "" "1")).trace = [buildQuery [] 1] ∧
      satisfiesFilter (buildQuery [] 1) (str "abc") = true ∧
      ¬ ∃ t ∈ ([] : List GoString), t <:+: str "abc") := by
  decide

/-- C10, amended. For every token list and name: with an empty token list the
query has no filter clause and every name is selected; a name that contains
one of the tokens satisfies the filter `Handler` builds; and when the token
list is not empty and no token holds `%` or `_`, the name satisfies the filter
if and only if it contains one of the tokens. -/
theorem C10_substring_matching (toks : List GoString) (id : Int) (name : GoString) :
    (toks = [] → satisfiesFilter (buildQuery toks id) name = true) ∧
      ((∃ t ∈ toks, t <:+: name) → satisfiesFilter (buildQuery toks id) name = true) ∧
      (toks ≠ [] → (∀ t ∈ toks, ∀ c ∈ t, c ≠ 37 ∧ c ≠ 95) →
        (satisfiesFilter (buildQuery toks id) name = true ↔ ∃ t ∈ toks, t <:+: name)) := by
  have hnil : toks = [] → satisfiesFilter (buildQuery toks id) name = true := by
    intro h
    simp [satisfiesFilter, filterPatterns_buildQuery, h]
  have hsat : toks ≠ [] → (satisfiesFilter (buildQuery toks id) name = true ↔
      ∃ t ∈ toks, likeMatch (37 :: (t ++ [37])) name = true) := by
    intro hne
    cases toks with
    | nil => exact absurd rfl hne
    | cons t0 rest =>
      simp only [satisfiesFilter, filterPatterns_buildQuery, List.map_cons, List.any_eq_true]
      constructor
      · rintro ⟨p, hp, hm⟩
        rw [← List.map_cons (fun t => 37 :: (t ++ [37])) t0 rest, List.mem_map] at hp
        obtain ⟨t, ht, rfl⟩ := hp
        exact ⟨t, ht, hm⟩
      · rintro ⟨t, ht, hm⟩
        refine ⟨37 :: (t ++ [37]), ?_, hm⟩
        rw [← List.map_cons (fun t => 37 :: (t ++ [37])) t0 rest]
        exact List.mem_map.2 ⟨t, ht, rfl⟩
  have h1 : (∃ t ∈ toks, t <:+: name) → satisfiesFilter (buildQuery toks id) name = true := by
    rintro ⟨t, ht, hin⟩
    have hne : toks ≠ [] := by
      intro h
      rw [h] at ht
      simp at ht
    exact (hsat hne).2 ⟨t, ht, likeMatch_of_infix t name hin⟩
  refine ⟨hnil, h1, fun hne hw => ⟨?_, h1⟩⟩
  intro h
  obtain ⟨t, ht, hm⟩ := (hsat hne).1 h
  exact ⟨t, ht, infix_of_likeMatch t name (hw t ht) hm⟩

/-- C10, amended, at the tokens `red`, `blue`: the name `darkblue` contains
`blue` and satisfies the filter. -/
theorem C10_substring_matching_witness :
    satisfiesFilter (buildQuery [str "red", str "blue"] 1) (str "darkblue") = true :=
  ((C10_substring_matching [str "red", str "blue"] 1 (str "darkblue")).2.2 (by decide)
    (by decide)).2 ⟨str "blue", by decide, str "dark", [], by decide⟩

end TagSearch
